import Mathlib

set_option maxRecDepth 20000

/-! Shallow embedding of src/update.py, a static news-page generator.
Python strings are modeled over their character lists; str.upper and the
regex classes \s and \d are modeled on their ASCII fragments, which covers
every input the script is applied to.  File reads, file modification times
and the final write are abstracted: each file carries its content and its
already-formatted modification date, and the written output is returned as
data instead of being written to disk. -/

/-- Python str.upper on its ASCII fragment (Char.toUpper uppercases a..z). -/
def pyUpper (s : String) : String := String.mk (s.data.map Char.toUpper)

/-- Lines 5-19 of update.py: map the path parts of a directory to a
(language code, media name) pair; Python None is modeled as none.
It is a plain function of the part list, so it is pure by construction. -/
def get_language_info_from_path (path_parts : List String) : Option String × Option String :=
  if 2 ≤ path_parts.length then
    if path_parts.getD 0 "" = "news" ∧ 3 ≤ path_parts.length then
      (some (pyUpper (path_parts.getD 1 "")), some (pyUpper (path_parts.getD 2 "")))
    else if 2 ≤ path_parts.length then
      (some (pyUpper (path_parts.getD 0 "")), some (pyUpper (path_parts.getD 1 "")))
    else (none, none)
  else (none, none)

/-- Line 43 of update.py: the group key is "LANG_MEDIA" when media_name is
truthy (a nonempty string), and the bare language code otherwise. -/
def folderKey (lang : String) (media : Option String) : String :=
  match media with
  | some m => if m = "" then lang else lang ++ "_" ++ m
  | none => lang

/-- ASCII fragment of the regex class \s: space, tab, newline, carriage
return, vertical tab and form feed. -/
def isSpaceChar (c : Char) : Bool :=
  c == ' ' || c == '\t' || c == '\n' || c == '\r' || c == '\x0b' || c == '\x0c'

/-- Length of the maximal whitespace prefix, the text a greedy leading \s*
consumes. -/
def wsCount : List Char → Nat
  | [] => 0
  | c :: rest => if isSpaceChar c then wsCount rest + 1 else 0

/-- Backtracking for the \s+ of the title regex: try consuming n whitespace
characters, largest first; succeed when the next character exists and is not
a newline, capturing the greedy (.+) from there. -/
def titleBacktrack : Nat → List Char → Option (List Char)
  | 0, _ => none
  | n + 1, t =>
    match t.drop (n + 1) with
    | [] => titleBacktrack n t
    | c :: rest =>
      if c == '\n' then titleBacktrack n t
      else some ((c :: rest).takeWhile (fun d => !(d == '\n')))

/-- Attempt the title regex right after a # found at a line start. -/
def titleAtHash (t : List Char) : Option (List Char) :=
  titleBacktrack (wsCount t) t

/-- Line 60 of update.py: leftmost match of the multiline regex
searching for a # at a line start, then at least one whitespace character,
then a nonempty run of non-newline characters captured up to the line end.
The Bool records whether the current position is a line start. -/
def searchTitle : Bool → List Char → Option (List Char)
  | _, [] => none
  | atLineStart, c :: rest =>
    if atLineStart && c == '#' then
      match titleAtHash rest with
      | some ttl => some ttl
      | none => searchTitle (c == '\n') rest
    else searchTitle (c == '\n') rest

/-- Python str.replace(".md", "") from lines 61 and 141 of update.py: drop
every occurrence of ".md", scanning left to right. -/
def replaceMd : List Char → List Char
  | '.' :: 'm' :: 'd' :: rest => replaceMd rest
  | c :: rest => c :: replaceMd rest
  | [] => []

/-- Line 61 of update.py: the title is the first heading match, with the
filename (all ".md" occurrences removed) as fallback. -/
def extractTitle (content md_file : String) : String :=
  match searchTitle true content.data with
  | some t => String.mk t
  | none => String.mk (replaceMd md_file.data)

/-- Line 78 of update.py: leftmost match of a newline-newline pair followed
by at least one non-newline character; the captured group is the greedy run
of non-newline characters. -/
def findSummary : List Char → Option (List Char)
  | [] => none
  | a :: rest =>
    if a == '\n' then
      match rest with
      | '\n' :: c :: r2 =>
        if c == '\n' then findSummary rest
        else some ((c :: r2).takeWhile (fun d => !(d == '\n')))
      | _ => findSummary rest
    else findSummary rest

/-- Lines 80-81 of update.py: keep the first 150 characters and append the
marker when the summary is longer than 150 characters. -/
def truncAt150 (summary : List Char) : List Char :=
  if 150 < summary.length then summary.take 150 ++ ('.' :: '.' :: '.' :: []) else summary

/-- Lines 78-81 of update.py: summary extraction with empty fallback,
then truncation. -/
def extractSummary (content : String) : String :=
  String.mk (truncAt150 ((findSummary content.data).getD []))

/-- Line 64 of update.py: leftmost position in the filename where eight
consecutive ASCII digits start; the match is exactly those eight digits. -/
def findDate8 : List Char → Option (List Char)
  | [] => none
  | c :: rest =>
    if ((c :: rest).take 8).length == 8 && ((c :: rest).take 8).all Char.isDigit then
      some ((c :: rest).take 8)
    else findDate8 rest

/-- Numeric value of an ASCII digit character. -/
def charVal (c : Char) : Nat := c.toNat - 48

/-- Decimal value of a digit list. -/
def digitsToNat (l : List Char) : Nat := l.foldl (fun a c => a * 10 + charVal c) 0

/-- Gregorian leap year rule, as datetime uses. -/
def isLeapYear (y : Nat) : Bool := (y % 4 == 0 && !(y % 100 == 0)) || y % 400 == 0

/-- Days in a month, as datetime validates them. -/
def daysInMonth (y m : Nat) : Nat :=
  if m == 2 then (if isLeapYear y then 29 else 28)
  else if m == 4 || m == 6 || m == 9 || m == 11 then 30
  else 31

/-- Lines 67-68 of update.py: whether strptime(ds, "%Y%m%d") on eight
digits succeeds, i.e. the eight digits form a valid calendar date
(year at least 1, month 1..12, day within the month). -/
def validYmd (ds : List Char) : Bool :=
  let y := digitsToNat (ds.take 4)
  let m := digitsToNat ((ds.drop 4).take 2)
  let d := digitsToNat (ds.drop 6)
  decide (1 ≤ y) && decide (1 ≤ m) && decide (m ≤ 12) && decide (1 ≤ d) &&
    decide (d ≤ daysInMonth y m)

/-- Line 69 of update.py: strftime("%Y-%m-%d") on a parsed YYYYMMDD digit
run reinserts the two dashes. -/
def formatYmd (ds : List Char) : String :=
  String.mk (ds.take 4) ++ "-" ++ String.mk ((ds.drop 4).take 2) ++ "-" ++ String.mk (ds.drop 6)

/-- Lines 63-75 of update.py: date from the first eight-digit run of the
filename when present (reformatted when a valid calendar date, verbatim
otherwise), else the formatted modification time, which is abstracted as the
mtimeDate input. -/
def extractDate (md_file mtimeDate : String) : String :=
  match findDate8 md_file.data with
  | some ds => if validYmd ds then formatYmd ds else String.mk ds
  | none => mtimeDate

/-- One file of the scanned tree: its name, its content, and the formatted
modification date that lines 73-75 of update.py would compute for it. -/
structure FileEntry where
  name : String
  content : String
  mtimeDate : String
deriving DecidableEq

/-- A directory of the scanned tree. -/
inductive FsTree : Type where
  | mk (name : String) (files : List FileEntry) (subdirs : List FsTree)

/-- Name of a directory. -/
def FsTree.name : FsTree → String
  | .mk n _ _ => n

/-- Files of a directory. -/
def FsTree.files : FsTree → List FileEntry
  | .mk _ f _ => f

/-- Subdirectories of a directory. -/
def FsTree.subdirs : FsTree → List FsTree
  | .mk _ _ s => s

/-- Python name.startswith("."), the hidden-entry test of line 28. -/
def isHiddenName (s : String) : Bool :=
  match s.data with
  | '.' :: _ => true
  | _ => false

mutual

/-- Lines 26-35 of update.py, os.walk part: visit a directory top-down,
yielding its path parts and file list, then its subtree. -/
def walkTree (path : List String) (t : FsTree) : List (List String × List FileEntry) :=
  match t with
  | FsTree.mk name files subdirs =>
    (path ++ [name], files) :: walkTrees (path ++ [name]) subdirs

/-- Lines 26-35 of update.py, pruning part: line 28 removes the
subdirectories whose name starts with a dot before they are visited.
Files are not filtered here. -/
def walkTrees (path : List String) (ts : List FsTree) : List (List String × List FileEntry) :=
  match ts with
  | [] => []
  | t :: rest =>
    (if isHiddenName t.name then [] else walkTree path t) ++ walkTrees path rest

end

/-- The working directory the script is run from: its direct
subdirectories and its own files. -/
structure Fs where
  subdirs : List FsTree
  files : List FileEntry

/-- Lines 26-35 of update.py: os.walk(".") with the root entry skipped by
the continue of lines 30-31 (the root files are never processed), hidden
subdirectories pruned at every level, and each visited directory reported
as its root-relative path parts with its file list. -/
def walk (fs : Fs) : List (List String × List FileEntry) :=
  walkTrees [] fs.subdirs

/-- One parsed news article, lines 83-89 of update.py. -/
structure Article where
  filename : String
  title : String
  date : String
  summary : String
  filepath : String
deriving DecidableEq

/-- One group of articles, lines 45-50 of update.py. -/
structure NewsGroup where
  language_code : String
  media_name : Option String
  folder_path : String
  articles : List Article
deriving DecidableEq

/-- Line 41 of update.py: keep the files ending in ".md" other than
README.md.  There is no hidden-file filter here. -/
def mdFilter (files : List FileEntry) : List FileEntry :=
  files.filter (fun f => (f.name.data.reverse.take 3 == ['d', 'm', '.']) && !(f.name == "README.md"))

/-- Root-relative path of a visited directory, as os.path.relpath returns
it on a POSIX system. -/
def relPathString (parts : List String) : String := String.intercalate "/" parts

/-- Line 53 of update.py: os.path.join of the walk root (which carries a
leading "./") with the file name. -/
def filePathOf (parts : List String) (name : String) : String :=
  "./" ++ relPathString parts ++ "/" ++ name

/-- Lines 52-89 of update.py: the Article built for one markdown file. -/
def mkArticle (parts : List String) (f : FileEntry) : Article :=
  { filename := f.name
    title := extractTitle f.content f.name
    date := extractDate f.name f.mtimeDate
    summary := extractSummary f.content
    filepath := filePathOf parts f.name }

/-- First group stored under a key, as a Python dict lookup (keys are
unique by construction). -/
def lookupGroup (st : List (String × NewsGroup)) (k : String) : Option NewsGroup :=
  match st.find? (fun kg => kg.1 == k) with
  | some kg => some kg.2
  | none => none

/-- Lines 83-89 of update.py: append the articles of the current directory
to the group stored under the key. -/
def appendArticles (st : List (String × NewsGroup)) (k : String) (arts : List Article) :
    List (String × NewsGroup) :=
  st.map (fun kg => if kg.1 == k then (kg.1, { kg.2 with articles := kg.2.articles ++ arts }) else kg)

/-- Lines 36-92 of update.py: process one (path parts, files) pair of the
walk.  Python truthiness: the directory contributes only when its markdown
list is nonempty and the language code is a nonempty string. -/
def stepEntry (st : List (String × NewsGroup)) (e : List String × List FileEntry) :
    List (String × NewsGroup) :=
  let lm := get_language_info_from_path e.1
  let md_files := mdFilter e.2
  match lm.1 with
  | none => st
  | some lang =>
    if md_files = [] ∨ lang = "" then st
    else
      let key := folderKey lang lm.2
      let arts := md_files.map (mkArticle e.1)
      if (lookupGroup st key).isSome then appendArticles st key arts
      else st ++ [(key, { language_code := lang, media_name := lm.2,
                          folder_path := relPathString e.1, articles := arts })]

/-- Lines 21-94 of update.py: build the Structure, an insertion-ordered
mapping from group key to NewsGroup, by folding the walk. -/
def get_project_structure (fs : Fs) : List (String × NewsGroup) :=
  (walk fs).foldl stepEntry []

/-- Stable insertion into a sorted list: x goes before the first element y
with le x y, hence before elements it ties with that came later. -/
def stableInsert (le : α → α → Bool) (x : α) : List α → List α
  | [] => [x]
  | y :: ys => if le x y then x :: y :: ys else y :: stableInsert le x ys

/-- Stable sort, the observable behavior of Python sorted and list.sort. -/
def stableSort (le : α → α → Bool) : List α → List α
  | [] => []
  | x :: xs => stableInsert le x (stableSort le xs)

/-- Lexicographic strict comparison of character lists by code point. -/
def strLtList : List Char → List Char → Bool
  | [], [] => false
  | [], _ :: _ => true
  | _ :: _, [] => false
  | a :: as, b :: bs =>
    if a.toNat < b.toNat then true
    else if b.toNat < a.toNat then false
    else strLtList as bs

/-- Python string comparison a less or equal b (lexicographic on code
points) as a Bool. -/
def strLeB (a b : String) : Bool := !(strLtList b.data a.data)

/-- Line 137 of update.py: list.sort(key=date, reverse=True), a stable sort
that puts larger date strings first and keeps ties in input order. -/
def sortArticlesDesc (arts : List Article) : List Article :=
  stableSort (fun a b => strLeB b.date a.date) arts

/-- Lines 96-101 of update.py: the sorted list of the distinct language
codes of the Structure. -/
def get_existing_languages (st : List (String × NewsGroup)) : List String :=
  stableSort strLeB (st.map (fun kg => kg.2.language_code)).dedup

/-- Lines 131-134 of update.py: the language tag, with the media name
appended after a dash when it is truthy. -/
def languageTag (lang : String) (media : Option String) : String :=
  match media with
  | some m => if m = "" then lang else lang ++ " - " ++ m
  | none => lang

/-- Lines 143-150 of update.py: the list item rendered for one article.
The link target is the filepath with every ".md" occurrence removed. -/
def newsItemHtml (a : Article) (tag : String) : String :=
  "\n            <li class=\"news-item\">\n                <div class=\"news-header\">\n                    <span class=\"news-date\">"
    ++ a.date
    ++ "</span>\n                    <span class=\"language-tag\">"
    ++ tag
    ++ "</span>\n                    <a href=\""
    ++ String.mk (replaceMd a.filepath.data)
    ++ "\" class=\"news-title\">"
    ++ a.title
    ++ "</a>\n                </div>\n            </li>"

/-- Write back a sorted article list into the entry of one key, the effect
of the in-place list.sort of line 137 on the dict. -/
def updateArticles (st : List (String × NewsGroup)) (k : String) (arts : List Article) :
    List (String × NewsGroup) :=
  st.map (fun kg => if kg.1 == k then (kg.1, { kg.2 with articles := arts }) else kg)

/-- Lines 125-151 of update.py: handle one group key, producing its items
and the mutated Structure. -/
def genStep (p : List String × List (String × NewsGroup)) (k : String) :
    List String × List (String × NewsGroup) :=
  match lookupGroup p.2 k with
  | none => p
  | some g =>
    let sorted := sortArticlesDesc g.articles
    let tag := languageTag g.language_code g.media_name
    (p.1 ++ sorted.map (fun a => newsItemHtml a tag), updateArticles p.2 k sorted)

/-- Lines 118-153 of update.py.  The Python function reads and mutates the
Structure dict (line 137 sorts each article list in place), so it is
modeled with explicit state passing: the returned pair is the joined HTML
and the Structure as the function leaves it. -/
def generate_news_list_html (st : List (String × NewsGroup)) :
    String × List (String × NewsGroup) :=
  let sorted_folders := stableSort strLeB (st.map Prod.fst)
  let p := sorted_folders.foldl genStep ([], st)
  (String.intercalate "\n" p.1, p.2)

/-- Lines 103-116 of update.py: the language showcase fragment; empty
string for an empty language list. -/
def generate_language_showcase_html (languages : List String) : String :=
  if languages = [] then ""
  else
    "\n            <div class=\"language-showcase\">\n                "
      ++ String.intercalate "\n                "
          (languages.map (fun lang => "<span class=\"language\">" ++ lang ++ "</span>"))
      ++ "\n            </div>"

/-- One match of a region regex, split as prefix, group 1 (open tag with
trailing whitespace), lazy middle, group 2 (whitespace and close tag), and
the remaining text. -/
structure RegionMatch where
  pre : List Char
  g1 : List Char
  mid : List Char
  g2 : List Char
  rest : List Char
deriving DecidableEq

/-- Match the open part of a region pattern at the current position: the
literal open tag, greedy whitespace, a closing angle bracket, then greedy
whitespace; returns group 1 and the remaining text. -/
def matchOpen (o : List Char) (s : List Char) : Option (List Char × List Char) :=
  if s.take o.length == o then
    let s1 := s.drop o.length
    let n1 := wsCount s1
    match s1.drop n1 with
    | '>' :: s3 =>
      let n2 := wsCount s3
      let k := o.length + n1 + 1 + n2
      some (s.take k, s.drop k)
    | _ => none
  else none

/-- Match the close part of a region pattern at the current position:
greedy whitespace, the literal close tag, greedy whitespace, a closing
angle bracket; returns group 2 and the remaining text.  The pattern pieces
start with non-whitespace characters, so greedy matching is exact. -/
def matchClose (c : List Char) (s : List Char) : Option (List Char × List Char) :=
  let n1 := wsCount s
  let s1 := s.drop n1
  if s1.take c.length == c then
    let s2 := s1.drop c.length
    let n2 := wsCount s2
    match s2.drop n2 with
    | '>' :: _ =>
      let k := n1 + c.length + n2 + 1
      some (s.take k, s.drop k)
    | _ => none
  else none

/-- The lazy .*? of the region regex: find the shortest middle after which
the close part matches. -/
def lazyClose (c : List Char) : List Char → Option (List Char × List Char × List Char)
  | [] =>
    match matchClose c [] with
    | some (g2, rest) => some ([], g2, rest)
    | none => none
  | ch :: s2 =>
    match matchClose c (ch :: s2) with
    | some (g2, rest) => some ([], g2, rest)
    | none => (lazyClose c s2).map (fun r => (ch :: r.1, r.2.1, r.2.2))

/-- Try the whole region pattern at the current position. -/
def tryRegion (o c : List Char) (s : List Char) :
    Option (List Char × List Char × List Char × List Char) :=
  match matchOpen o s with
  | none => none
  | some (g1, t) =>
    match lazyClose c t with
    | none => none
    | some (mid, g2, rest) => some (g1, mid, g2, rest)

/-- Leftmost match of the region pattern, as re.search finds it. -/
def findRegion (o c : List Char) : List Char → Option RegionMatch
  | [] =>
    match tryRegion o c [] with
    | some (g1, mid, g2, rest) => some ⟨[], g1, mid, g2, rest⟩
    | none => none
  | ch :: s2 =>
    match tryRegion o c (ch :: s2) with
    | some (g1, mid, g2, rest) => some ⟨[], g1, mid, g2, rest⟩
    | none => (findRegion o c s2).map (fun m => ⟨ch :: m.pre, m.g1, m.mid, m.g2, m.rest⟩)

/-- Python re.sub: replace every non-overlapping match, scanning left to
right; the fuel bounds the number of matches (each match is nonempty for
the patterns used here, so an initial fuel of length + 1 is enough). -/
def reSubAux (o c : List Char) (repl : List Char → List Char → List Char) :
    Nat → List Char → List Char
  | 0, s => s
  | fuel + 1, s =>
    match findRegion o c s with
    | none => s
    | some m => m.pre ++ repl m.g1 m.g2 ++ reSubAux o c repl fuel m.rest

/-- Python re.sub over a whole text. -/
def reSubAll (o c : List Char) (repl : List Char → List Char → List Char)
    (s : List Char) : List Char :=
  reSubAux o c repl (s.length + 1) s

/-- Open literal of the language showcase region regex of lines 175-180. -/
def showcaseOpenLit : List Char := "<div class=\"language-showcase\"".data

/-- Close literal of the language showcase region regex. -/
def showcaseCloseLit : List Char := "</div".data

/-- Open literal of the news list region regex of lines 183-188. -/
def newsOpenLit : List Char := "<ul class=\"news-list\"".data

/-- Close literal of the news list region regex. -/
def newsCloseLit : List Char := "</ul".data

/-- Lines 175-180 of update.py: substitute the showcase region.  When the
fragment is falsy (empty) the replacement string is empty, so the whole
match, open and close tags included, is removed; otherwise the two captured
groups are kept around the fragment. -/
def subShowcase (frag : String) (content : List Char) : List Char :=
  reSubAll showcaseOpenLit showcaseCloseLit
    (fun g1 g2 => if frag = "" then [] else g1 ++ frag.data ++ g2) content

/-- Lines 183-188 of update.py: substitute the news list region,
unconditionally keeping the captured groups around the fragment. -/
def subNews (frag : String) (content : List Char) : List Char :=
  reSubAll newsOpenLit newsCloseLit (fun g1 g2 => g1 ++ frag.data ++ g2) content

/-- Outcome of update_index_html: the returned Bool, the content written
to index.html when a write happens, and the line printed. -/
structure UpdateResult where
  ok : Bool
  written : Option String
  msg : String
deriving DecidableEq

/-- Total article count of the Structure, for the success message. -/
def sumArticles (st : List (String × NewsGroup)) : Nat :=
  (st.map (fun kg => kg.2.articles.length)).sum

/-- Lines 155-199 of update.py: the whole update.  The template is the
abstracted content of index_template.html; a missing regex region makes the
corresponding re.sub a silent no-op, and the document is then written and
success is reported anyway. -/
def update_index_html (fs : Fs) (template : String) : UpdateResult :=
  let st := get_project_structure fs
  if st = [] then
    { ok := false, written := none, msg := "No articles found in the project structure" }
  else
    let p := generate_news_list_html st
    let language_showcase_html := generate_language_showcase_html (get_existing_languages p.2)
    let u1 := subShowcase language_showcase_html template.data
    let u2 := subNews p.1 u1
    { ok := true, written := some (String.mk u2),
      msg := "Successfully updated index.html with " ++ toString p.2.length
        ++ " folders and " ++ toString (sumArticles p.2) ++ " articles" }

/-- The effect of one loop iteration of lines 125-151 of update.py on the
Structure alone: the looked-up group's article list is sorted in place. -/
def genStep2 (st : List (String × NewsGroup)) (k : String) : List (String × NewsGroup) :=
  match lookupGroup st k with
  | none => st
  | some g => updateArticles st k (sortArticlesDesc g.articles)

/-- Second definition for comparison, following the claim wording rather
than the source: strip one trailing ".md" extension and alter nothing
else. -/
def stripTrailingMdSpec (s : String) : String :=
  if s.data.reverse.take 3 == ['d', 'm', '.'] then String.mk (s.data.take (s.data.length - 3))
  else s

/-- Example file en/bbc/x20240115.md. -/
def exFile1 : FileEntry := ⟨"x20240115.md", "# T\n\nS.", "2024-05-05"⟩

/-- Example working directory holding only en/bbc/x20240115.md. -/
def exFs1 : Fs := ⟨[FsTree.mk "en" [] [FsTree.mk "bbc" [exFile1] []]], []⟩

/-- The article extracted from exFile1. -/
def exArt1 : Article :=
  ⟨"x20240115.md", "T", "2024-01-15", "S.", "./en/bbc/x20240115.md"⟩

/-- The group built for en/bbc in exFs1. -/
def exGroup1 : NewsGroup := ⟨"EN", some "BBC", "en/bbc", [exArt1]⟩

/-- A hidden markdown file: the name starts with a dot. -/
def exFileHidden : FileEntry := ⟨".h20240115.md", "# H\n\nHS.", "2024-05-05"⟩

/-- Example working directory holding only en/bbc/.h20240115.md. -/
def exFs2 : Fs := ⟨[FsTree.mk "en" [] [FsTree.mk "bbc" [exFileHidden] []]], []⟩

/-- An empty working directory. -/
def emptyFs : Fs := ⟨[], []⟩

/-- Two articles with ascending dates, for the mutation counterexample. -/
def artOld : Article := ⟨"a20240101.md", "Old", "2024-01-01", "", "./en/bbc/a20240101.md"⟩

/-- The newer of the two example articles. -/
def artNew : Article := ⟨"b20240202.md", "New", "2024-02-02", "", "./en/bbc/b20240202.md"⟩

/-- A Structure whose article list is not yet sorted descending. -/
def st0 : List (String × NewsGroup) := [("EN_BBC", ⟨"EN", some "BBC", "en/bbc", [artOld, artNew]⟩)]

theorem walk_exFs1 : walk exFs1 = [(["en"], []), (["en", "bbc"], [exFile1])] := by
  simp only [walk, walkTrees, walkTree, exFs1]
  decide

theorem gps_exFs1 : get_project_structure exFs1 = [("EN_BBC", exGroup1)] := by
  rw [get_project_structure, walk_exFs1]
  decide

theorem walk_exFs2 : walk exFs2 = [(["en"], []), (["en", "bbc"], [exFileHidden])] := by
  simp only [walk, walkTrees, walkTree, exFs2]
  decide

theorem walk_emptyFs : walk emptyFs = [] := by
  simp only [walk, walkTrees, emptyFs]

theorem gps_emptyFs : get_project_structure emptyFs = [] := by
  rw [get_project_structure, walk_emptyFs]
  rfl

theorem reSubAux_none (o c : List Char) (repl : List Char → List Char → List Char)
    (fuel : Nat) (s : List Char) (h : findRegion o c s = none) :
    reSubAux o c repl fuel s = s := by
  cases fuel with
  | zero => rfl
  | succ n => rw [reSubAux, h]

theorem reSubAll_none (o c : List Char) (repl : List Char → List Char → List Char)
    (s : List Char) (h : findRegion o c s = none) :
    reSubAll o c repl s = s :=
  reSubAux_none o c repl (s.length + 1) s h

/-- C1, counterexample: a template with no news-list region.  The claim
says the operation must fail and not write; the code performs a no-op
substitution, writes the document unchanged and reports success. -/
theorem C1_counterexample :
    findRegion newsOpenLit newsCloseLit ("hello" : String).data = none ∧
    update_index_html exFs1 "hello" =
      ⟨true, some "hello",
        "Successfully updated index.html with 1 folders and 1 articles"⟩ := by
  constructor
  · decide
  · rw [update_index_html, gps_exFs1]
    decide

/-- C1, amended: a missing news-list region is not fatal.  When neither
marker region occurs in the template, both substitutions are silent no-ops,
the operation still writes the output document (verbatim equal to the
template) and reports success. -/
theorem C1_amended (fs : Fs) (template : String)
    (h1 : get_project_structure fs ≠ [])
    (h2 : findRegion showcaseOpenLit showcaseCloseLit template.data = none)
    (h3 : findRegion newsOpenLit newsCloseLit template.data = none) :
    (update_index_html fs template).ok = true ∧
      (update_index_html fs template).written = some template := by
  have e1 : ∀ frag : String, subShowcase frag template.data = template.data := fun frag =>
    reSubAll_none _ _ _ _ h2
  have e2 : ∀ frag : String, subNews frag template.data = template.data := fun frag =>
    reSubAll_none _ _ _ _ h3
  simp only [update_index_html, if_neg h1, e1, e2]
  refine ⟨?_, ?_⟩ <;> trivial

/-- C1, witness for the amended theorem at a concrete input. -/
theorem C1_witness :
    (update_index_html exFs1 "plain text").ok = true ∧
      (update_index_html exFs1 "plain text").written = some "plain text" :=
  C1_amended exFs1 "plain text" (by rw [gps_exFs1]; decide) (by decide) (by decide)

/-- C2: evaluation at the failing input.  The file .h20240115.md is hidden
(name starts with a dot) yet the built Structure contains an Article for
it: only hidden directories are pruned at line 28 of update.py, files are
not filtered, contradicting the comment above that line. -/
theorem C2_code_eval :
    isHiddenName ".h20240115.md" = true ∧
    get_project_structure exFs2 =
      [("EN_BBC", ⟨"EN", some "BBC", "en/bbc",
        [⟨".h20240115.md", "H", "2024-01-15", "HS.", "./en/bbc/.h20240115.md"⟩]⟩)] := by
  constructor
  · decide
  · rw [get_project_structure, walk_exFs2]
    decide

/-- C3: the classifier follows the three claimed branches, in priority
order, and is a pure function of the segment list by construction. -/
theorem C3_classifier (parts : List String) :
    (3 ≤ parts.length → parts.getD 0 "" = "news" →
      get_language_info_from_path parts =
        (some (pyUpper (parts.getD 1 "")), some (pyUpper (parts.getD 2 "")))) ∧
    (2 ≤ parts.length → ¬(3 ≤ parts.length ∧ parts.getD 0 "" = "news") →
      get_language_info_from_path parts =
        (some (pyUpper (parts.getD 0 "")), some (pyUpper (parts.getD 1 "")))) ∧
    (parts.length < 2 → get_language_info_from_path parts = (none, none)) := by
  refine ⟨fun h3 hn => ?_, fun h2 hnot => ?_, fun hlt => ?_⟩
  · rw [get_language_info_from_path, if_pos (by omega), if_pos ⟨hn, h3⟩]
  · rw [get_language_info_from_path, if_pos h2,
      if_neg (fun hc => hnot ⟨hc.2, hc.1⟩), if_pos h2]
  · rw [get_language_info_from_path, if_neg (by omega)]

/-- C3, witness: the three branches at concrete inputs. -/
theorem C3_witness :
    get_language_info_from_path ["news", "en", "bbc"] = (some "EN", some "BBC") ∧
    get_language_info_from_path ["en", "bbc"] = (some "EN", some "BBC") ∧
    get_language_info_from_path ["en"] = (none, none) :=
  ⟨((C3_classifier ["news", "en", "bbc"]).1 (by decide) (by decide)).trans (by decide),
   ((C3_classifier ["en", "bbc"]).2.1 (by decide) (by decide)).trans (by decide),
   (C3_classifier ["en"]).2.2 (by decide)⟩

/-- C4, counterexample: the filename 1234567820240115.md contains the
substring 20240115, but the code takes the first eight-digit run, 12345678,
which is not a valid calendar date, so the stored date is the raw string
12345678 and not 2024-01-15. -/
theorem C4_counterexample :
    ("1234567820240115.md" : String).data =
      ("12345678" : String).data ++ ("20240115" : String).data ++ (".md" : String).data ∧
    extractDate "1234567820240115.md" "2000-02-02" = "12345678" ∧
    ("12345678" : String) ≠ "2024-01-15" :=
  ⟨by decide, by decide, by decide⟩

/-- C4, amended: the date comes from the first eight-digit run of the
filename, not from any occurrence: if that run is 20240115 the date is
2024-01-15; if it is 99999999 (invalid calendar date) the date is the raw
run; when the filename has no eight-digit run, the date is the formatted
modification time passed as the mtimeDate abstraction. -/
theorem C4_amended (md_file mtimeDate : String) :
    (findDate8 md_file.data = some ("20240115" : String).data →
      extractDate md_file mtimeDate = "2024-01-15") ∧
    (findDate8 md_file.data = some ("99999999" : String).data →
      extractDate md_file mtimeDate = "99999999") ∧
    (findDate8 md_file.data = none → extractDate md_file mtimeDate = mtimeDate) := by
  refine ⟨fun h => ?_, fun h => ?_, fun h => ?_⟩ <;> rw [extractDate, h] <;> rfl

/-- C4, witness for the three amended branches at concrete filenames. -/
theorem C4_witness :
    extractDate "x20240115.md" "1999-01-01" = "2024-01-15" ∧
    extractDate "x99999999.md" "1999-01-01" = "99999999" ∧
    extractDate "notes.md" "1999-01-01" = "1999-01-01" :=
  ⟨(C4_amended "x20240115.md" "1999-01-01").1 (by decide),
   (C4_amended "x99999999.md" "1999-01-01").2.1 (by decide),
   (C4_amended "notes.md" "1999-01-01").2.2 (by decide)⟩

/-- C8: the stored summary is at most 153 characters long, and it equals
the first 150 characters with the three-dot marker appended exactly when
the raw extracted summary is longer than 150 characters. -/
theorem C8_truncation (s : List Char) :
    (truncAt150 s).length ≤ 153 ∧
    (truncAt150 s = s.take 150 ++ ('.' :: '.' :: '.' :: []) ↔ 150 < s.length) := by
  rw [truncAt150]
  by_cases h : 150 < s.length
  · rw [if_pos h]
    refine ⟨?_, iff_of_true rfl h⟩
    simp [List.length_append, List.length_take]
  · rw [if_neg h]
    refine ⟨by omega, iff_of_false (fun he => ?_) h⟩
    have hlen := congrArg List.length he
    simp [List.length_append, List.length_take] at hlen
    omega

/-- C9: an empty Structure makes the operation report that no articles
were found, return failure, and write nothing. -/
theorem C9_empty_structure (fs : Fs) (template : String)
    (h : get_project_structure fs = []) :
    update_index_html fs template =
      ⟨false, none, "No articles found in the project structure"⟩ := by
  simp [update_index_html, h]

/-- C9, witness: the empty working directory yields an empty Structure. -/
theorem C9_witness :
    update_index_html emptyFs "t" =
      ⟨false, none, "No articles found in the project structure"⟩ :=
  C9_empty_structure emptyFs "t" gps_emptyFs

theorem take2_shape (l : List Char) (a b : Char) (h : l.take 2 = [a, b]) :
    l = a :: b :: l.drop 2 := by
  rcases l with _ | ⟨x, _ | ⟨y, r⟩⟩ <;> simp_all

theorem replaceMd_cons_ne (c : Char) (l : List Char)
    (h : ¬(c = '.' ∧ l.take 2 = ['m', 'd'])) :
    replaceMd (c :: l) = c :: replaceMd l := by
  rw [replaceMd.eq_def]
  split
  · rename_i rest heq
    injection heq with h1 h2
    exact absurd ⟨h1, by rw [h2]; simp⟩ h
  · rename_i c2 rest hno heq
    injection heq with h1 h2
    rw [h1, h2]
  · rename_i heq
    exact (List.cons_ne_nil c l heq).elim

/-- C6, counterexample: Python str.replace removes every ".md" occurrence,
not only a trailing extension.  For the qualifying filename note.md.md the
fallback title is "note", not "note.md"; for a filepath whose directory
name contains ".md" the link target drops that occurrence too, differing
from the claimed strip-only-trailing behavior. -/
theorem C6_counterexample :
    extractTitle "no heading" "note.md.md" = "note" ∧
    ("note" : String) ≠ "note.md" ∧
    replaceMd ("./v1.md/x20240101.md" : String).data = ("./v1/x20240101" : String).data ∧
    stripTrailingMdSpec "./v1.md/x20240101.md" = "./v1.md/x20240101" ∧
    ("./v1/x20240101" : String).data ≠ ("./v1.md/x20240101" : String).data :=
  ⟨by decide, by decide, by decide, by decide, by decide⟩

/-- C6, amended: the link target and the fallback title remove every
occurrence of ".md" from the filepath and the filename.  In particular a
trailing ".md" extension contributes nothing to the result, so it is
always stripped, but occurrences elsewhere are removed as well. -/
theorem C6_amended (s : List Char) :
    replaceMd (s ++ ('.' :: 'm' :: 'd' :: [])) = replaceMd s := by
  induction s using replaceMd.induct with
  | case1 rest ih =>
    simpa [replaceMd] using ih
  | case2 c rest h ih =>
    have hR : ¬(c = '.' ∧ rest.take 2 = ['m', 'd']) := by
      rintro ⟨hc, ht⟩
      exact h (rest.drop 2) hc (take2_shape rest 'm' 'd' ht)
    have hL : ¬(c = '.' ∧ (rest ++ ('.' :: 'm' :: 'd' :: [])).take 2 = ['m', 'd']) := by
      rintro ⟨hc, ht⟩
      rcases rest with _ | ⟨a, _ | ⟨b, r⟩⟩
      · simp at ht
      · simp at ht
      · rw [List.cons_append, List.cons_append, List.take_succ_cons, List.take_succ_cons] at ht
        simp only [List.take_zero] at ht
        rw [List.cons.injEq, List.cons.injEq] at ht
        exact h r hc (by rw [ht.1, ht.2.1])
    rw [List.cons_append, replaceMd_cons_ne c _ hL, replaceMd_cons_ne c rest hR, ih]
  | case3 => rfl

/-- C7, counterexample: with an empty language list the fragment is empty,
and the substitution then uses the empty string as the whole replacement,
removing the open and close tags instead of collapsing the region to
them. -/
theorem C7_counterexample :
    generate_language_showcase_html [] = "" ∧
    subShowcase "" ("<div class=\"language-showcase\">X</div>" : String).data = [] ∧
    subShowcase "" ("<div class=\"language-showcase\">X</div>" : String).data ≠
      ("<div class=\"language-showcase\"></div>" : String).data :=
  ⟨rfl, by decide, by decide⟩

/-- C7, amended: an empty language list renders the empty fragment, and in
that case the substitution deletes each matched showcase region wholesale,
open and close tags included, keeping only the text before and after the
match. -/
theorem C7_amended :
    generate_language_showcase_html [] = "" ∧
    ∀ (content : List Char) (m : RegionMatch),
      findRegion showcaseOpenLit showcaseCloseLit content = some m →
      findRegion showcaseOpenLit showcaseCloseLit m.rest = none →
      subShowcase "" content = m.pre ++ m.rest := by
  refine ⟨rfl, fun content m hfind hnone => ?_⟩
  rw [subShowcase, reSubAll, reSubAux, hfind]
  simp only [if_pos rfl]
  rw [reSubAux_none _ _ _ _ _ hnone]
  simp

/-- C7, witness: the amended theorem applied to a concrete template whose
showcase region holds the single character X. -/
theorem C7_witness :
    findRegion showcaseOpenLit showcaseCloseLit
        ("<div class=\"language-showcase\">X</div>" : String).data =
      some ⟨[], ("<div class=\"language-showcase\">" : String).data, ['X'],
        ("</div>" : String).data, []⟩ ∧
    subShowcase "" ("<div class=\"language-showcase\">X</div>" : String).data = [] := by
  refine ⟨by decide, ?_⟩
  have h := C7_amended.2 ("<div class=\"language-showcase\">X</div>" : String).data
    ⟨[], ("<div class=\"language-showcase\">" : String).data, ['X'],
      ("</div>" : String).data, []⟩ (by decide) (by decide)
  simpa using h

theorem genStep_snd (ks : List String) :
    ∀ (acc : List String) (st : List (String × NewsGroup)),
      (ks.foldl genStep (acc, st)).2 = ks.foldl genStep2 st := by
  induction ks with
  | nil => intro acc st; rfl
  | cons k ks ih =>
    intro acc st
    rw [List.foldl_cons, List.foldl_cons]
    have hstep : genStep (acc, st) k = ((genStep (acc, st) k).1, genStep2 st k) := by
      rw [genStep, genStep2]
      cases hl : lookupGroup st k <;> simp [genStep, hl]
    rw [hstep, ih]

theorem keys_updateArticles (st : List (String × NewsGroup)) (k : String) (arts : List Article) :
    (updateArticles st k arts).map Prod.fst = st.map Prod.fst := by
  rw [updateArticles, List.map_map]
  refine List.map_congr_left (fun a ha => ?_)
  by_cases h : a.1 == k
  · simp [Function.comp, h]
  · simp [Function.comp, h]

theorem keys_genStep2 (st : List (String × NewsGroup)) (k : String) :
    (genStep2 st k).map Prod.fst = st.map Prod.fst := by
  rw [genStep2]
  cases hl : lookupGroup st k with
  | none => rfl
  | some g => exact keys_updateArticles st k (sortArticlesDesc g.articles)

theorem lookupGroup_none (st : List (String × NewsGroup)) (k : String)
    (h : lookupGroup st k = none) : ∀ kg ∈ st, kg.1 ≠ k := by
  intro kg hm hk
  rw [lookupGroup] at h
  cases hf : st.find? (fun kg => kg.1 == k) with
  | some x => rw [hf] at h; exact Option.noConfusion h
  | none =>
    have := List.find?_eq_none.mp hf kg hm
    simp [hk] at this

theorem lookupGroup_nodup (st : List (String × NewsGroup))
    (hnd : (st.map Prod.fst).Nodup) :
    ∀ k g, (k, g) ∈ st → lookupGroup st k = some g := by
  induction st with
  | nil => intro k g hm; cases hm
  | cons a st ih =>
    intro k g hm
    rw [List.map_cons, List.nodup_cons] at hnd
    rcases List.mem_cons.mp hm with heq | htail
    · rw [← heq, lookupGroup, List.find?_cons_of_pos _ (by simp)]
    · have hne : a.1 ≠ k := by
        intro hak
        exact hnd.1 (hak ▸ List.mem_map_of_mem Prod.fst htail)
      rw [lookupGroup, List.find?_cons_of_neg _ (by simp [hne])]
      exact ih hnd.2 k g htail

theorem foldl_genStep2 (ks : List String) :
    ∀ st : List (String × NewsGroup), (st.map Prod.fst).Nodup → ks.Nodup →
      ks.foldl genStep2 st =
        st.map (fun kg =>
          if kg.1 ∈ ks then
            (kg.1, { kg.2 with articles := sortArticlesDesc kg.2.articles })
          else kg) := by
  induction ks with
  | nil =>
    intro st h1 h2
    simp
  | cons k ks ih =>
    intro st h1 h2
    have hk_not : k ∉ ks := (List.nodup_cons.mp h2).1
    rw [List.foldl_cons]
    have hnd2 : ((genStep2 st k).map Prod.fst).Nodup := by rw [keys_genStep2]; exact h1
    rw [ih (genStep2 st k) hnd2 (List.nodup_cons.mp h2).2]
    cases hl : lookupGroup st k with
    | none =>
      have hst : genStep2 st k = st := by rw [genStep2, hl]
      rw [hst]
      refine List.map_congr_left (fun kg hm => ?_)
      have hne : kg.1 ≠ k := lookupGroup_none st k hl kg hm
      by_cases hmem : kg.1 ∈ ks
      · rw [if_pos hmem, if_pos (List.mem_cons_of_mem _ hmem)]
      · rw [if_neg hmem, if_neg (by simp [List.mem_cons, hne, hmem])]
    | some g =>
      have hst : genStep2 st k = updateArticles st k (sortArticlesDesc g.articles) := by
        rw [genStep2, hl]
      rw [hst, updateArticles, List.map_map]
      refine List.map_congr_left (fun kg hm => ?_)
      by_cases hk : kg.1 = k
      · have hlk := lookupGroup_nodup st h1 kg.1 kg.2 hm
        rw [hk, hl] at hlk
        injection hlk with hg
        simp [Function.comp, hk, hg, hk_not]
      · simp [Function.comp, hk, List.mem_cons]

theorem stableInsert_perm (le : α → α → Bool) (x : α) (l : List α) :
    List.Perm (stableInsert le x l) (x :: l) := by
  induction l with
  | nil => exact List.Perm.refl _
  | cons y ys ih =>
    rw [stableInsert]
    by_cases h : le x y
    · rw [if_pos h]
    · rw [if_neg h]
      exact (ih.cons y).trans (List.Perm.swap x y ys)

theorem stableSort_perm (le : α → α → Bool) (l : List α) :
    List.Perm (stableSort le l) l := by
  induction l with
  | nil => exact List.Perm.refl _
  | cons x xs ih => exact (stableInsert_perm le x _).trans (ih.cons x)

/-- C5, counterexample: rendering the news list mutates the Structure.
On a Structure whose single group lists its two articles in ascending date
order, the returned Structure differs from the input: the article list has
been sorted in place. -/
theorem C5_counterexample : (generate_news_list_html st0).2 ≠ st0 := by decide

/-- C5, amended: the language showcase render takes only the language list
and modifies nothing, and the news-list render's output is a function of
the Structure value, but the news-list render sorts each group's article
list in place (stable, by date descending); it modifies nothing besides
that order. -/
theorem C5_amended (st : List (String × NewsGroup))
    (h : (st.map Prod.fst).Nodup) :
    (generate_news_list_html st).2 =
      st.map (fun kg => (kg.1, { kg.2 with articles := sortArticlesDesc kg.2.articles })) := by
  have hks : List.Perm (stableSort strLeB (st.map Prod.fst)) (st.map Prod.fst) :=
    stableSort_perm _ _
  have hnd : (stableSort strLeB (st.map Prod.fst)).Nodup := hks.nodup_iff.mpr h
  simp only [generate_news_list_html]
  rw [genStep_snd, foldl_genStep2 _ st h hnd]
  refine List.map_congr_left (fun kg hm => ?_)
  rw [if_pos (hks.mem_iff.mpr (List.mem_map_of_mem Prod.fst hm))]

/-- C5, witness: the amended theorem at the concrete two-article
Structure. -/
theorem C5_witness :
    (generate_news_list_html st0).2 =
      st0.map (fun kg => (kg.1, { kg.2 with articles := sortArticlesDesc kg.2.articles })) :=
  C5_amended st0 (by decide)

theorem pyUpper_ne_empty (s : String) (h : s ≠ "") : pyUpper s ≠ "" := by
  intro hc
  apply h
  have hd : s.data.map Char.toUpper = [] := congrArg String.data hc
  have hs : s.data = [] := List.map_eq_nil_iff.mp hd
  cases s
  simp_all

theorem getD_mem (l : List String) (i : Nat) (h : i < l.length) : l.getD i "" ∈ l := by
  simp only [List.getD_eq_getElem?_getD, List.getElem?_eq_getElem h, Option.getD_some]
  exact List.getElem_mem h

theorem glifp_cases (parts : List String) :
    (∃ l m, get_language_info_from_path parts = (some l, some m) ∧
      ∃ i, i < parts.length ∧ m = pyUpper (parts.getD i "")) ∨
    get_language_info_from_path parts = (none, none) := by
  rw [get_language_info_from_path]
  split_ifs with h1 h2
  · exact Or.inl ⟨_, _, rfl, 2, by omega, rfl⟩
  · exact Or.inl ⟨_, _, rfl, 1, by omega, rfl⟩
  · exact Or.inr rfl

theorem stepEntry_good (st : List (String × NewsGroup)) (e : List String × List FileEntry)
    (he : ∀ p ∈ e.1, p ≠ "")
    (hst : ∀ k g, (k, g) ∈ st →
      ∃ m, g.media_name = some m ∧ m ≠ "" ∧ k = g.language_code ++ "_" ++ m) :
    ∀ k g, (k, g) ∈ stepEntry st e →
      ∃ m, g.media_name = some m ∧ m ≠ "" ∧ k = g.language_code ++ "_" ++ m := by
  intro k g hm
  rcases glifp_cases e.1 with ⟨l, m, hsome, i, hi, hmi⟩ | hnone
  · have hmne : m ≠ "" := hmi ▸ pyUpper_ne_empty _ (he _ (getD_mem e.1 i hi))
    simp only [stepEntry, hsome] at hm
    split at hm
    · exact hst k g hm
    · split at hm
      · rcases List.mem_map.mp hm with ⟨a, ha, hEq⟩
        rcases hst a.1 a.2 ha with ⟨m0, hm0, hm0ne, hk0⟩
        by_cases hak : a.1 == folderKey l (some l, some m).2
        · rw [if_pos hak] at hEq
          injection hEq with hEqk hEqg
          subst hEqk
          subst hEqg
          exact ⟨m0, hm0, hm0ne, hk0⟩
        · rw [if_neg hak] at hEq
          subst hEq
          exact hst k g ha
      · rcases List.mem_append.mp hm with hold | hnew
        · exact hst k g hold
        · have hx := List.mem_singleton.mp hnew
          injection hx with hx1 hx2
          subst hx2
          refine ⟨m, rfl, hmne, ?_⟩
          rw [hx1]
          show folderKey l (some m) = l ++ "_" ++ m
          simp [folderKey, hmne]
  · simp only [stepEntry, hnone] at hm
    exact hst k g hm

theorem foldl_stepEntry_good (es : List (List String × List FileEntry)) :
    ∀ st : List (String × NewsGroup), (∀ e ∈ es, ∀ p ∈ e.1, p ≠ "") →
      (∀ k g, (k, g) ∈ st →
        ∃ m, g.media_name = some m ∧ m ≠ "" ∧ k = g.language_code ++ "_" ++ m) →
      ∀ k g, (k, g) ∈ es.foldl stepEntry st →
        ∃ m, g.media_name = some m ∧ m ≠ "" ∧ k = g.language_code ++ "_" ++ m := by
  induction es with
  | nil => intro st hes hst; exact hst
  | cons e es ih =>
    intro st hes hst
    rw [List.foldl_cons]
    exact ih (stepEntry st e) (fun x hx => hes x (List.mem_cons_of_mem _ hx))
      (stepEntry_good st e (hes e (List.mem_cons_self _ _)) hst)

/-- C10: the classifier returns both a language and a media name or
neither, and consequently, for any working directory whose walked path
segments are nonempty (true of every real directory name), every group of
the built Structure carries a present nonempty media name and its key has
the composite LANG_MEDIA form; the bare LANG key is never produced. -/
theorem C10_composite_keys :
    (∀ parts, (∃ l m, get_language_info_from_path parts = (some l, some m)) ∨
      get_language_info_from_path parts = (none, none)) ∧
    ∀ fs : Fs, (∀ e ∈ walk fs, ∀ p ∈ e.1, p ≠ "") →
      ∀ k g, (k, g) ∈ get_project_structure fs →
        ∃ m, g.media_name = some m ∧ m ≠ "" ∧ k = g.language_code ++ "_" ++ m := by
  constructor
  · intro parts
    rcases glifp_cases parts with ⟨l, m, hsome, _⟩ | hnone
    · exact Or.inl ⟨l, m, hsome⟩
    · exact Or.inr hnone
  · intro fs hwalk k g hm
    exact foldl_stepEntry_good (walk fs) [] hwalk (fun k g h => absurd h (List.not_mem_nil _))
      k g hm

/-- C10, witness: the invariant holds for the group that exFs1 builds. -/
theorem C10_witness :
    ∃ m, exGroup1.media_name = some m ∧ m ≠ "" ∧
      "EN_BBC" = exGroup1.language_code ++ "_" ++ m :=
  C10_composite_keys.2 exFs1 (by rw [walk_exFs1]; decide) "EN_BBC" exGroup1
    (by rw [gps_exFs1]; exact List.mem_singleton.mpr rfl)
